import Mathlib

/-!
Shallow embedding of the pylsat L402/LSAT middleware
(`src/pylsat/pylsat.py`, with the older duplicate `src/lsat_handler.py`).

Python strings are Lean `String`; byte values are `Nat`; Python `None`
is `Option.none`; raised exceptions are modelled with `Option`/`Except`
results or with explicit `Outcome` constructors.  External collaborators
(hashlib SHA-256, pymacaroons serialization, bolt11 decoding, datetime
arithmetic) are fields of the validator record, mirroring the spec's
treatment of them as black-box capabilities.  The `verified_macaroons`
dict is threaded through each call as explicit state.
-/

/-- Lexicographic (code-point) comparison of character lists; embeds
Python string `<`. -/
def charListLt : List Char → List Char → Bool
  | [], [] => false
  | [], _ :: _ => true
  | _ :: _, [] => false
  | a :: as, b :: bs =>
    if a.toNat < b.toNat then true
    else if b.toNat < a.toNat then false
    else charListLt as bs

/-- Python `a < b` on strings. -/
def pyStrLt (a b : String) : Bool := charListLt a.data b.data

/-- Python `a <= b` on strings (in the total order this is not `b < a`). -/
def pyStrLe (a b : String) : Bool := !(charListLt b.data a.data)

/-- Value of one hexadecimal digit, as accepted by Python `bytes.fromhex`. -/
def hexDigitVal (c : Char) : Option Nat :=
  if '0' ≤ c ∧ c ≤ '9' then some (c.toNat - '0'.toNat)
  else if 'a' ≤ c ∧ c ≤ 'f' then some (c.toNat - 'a'.toNat + 10)
  else if 'A' ≤ c ∧ c ≤ 'F' then some (c.toNat - 'A'.toNat + 10)
  else none

/-- Pairs of hex digits to byte values; an odd digit count or a non-hex
character is the `ValueError` case (`none`). -/
def hexPairs : List Char → Option (List Nat)
  | [] => some []
  | [_] => none
  | c1 :: c2 :: rest =>
    match hexDigitVal c1, hexDigitVal c2, hexPairs rest with
    | some hi, some lo, some bs => some ((16 * hi + lo) :: bs)
    | _, _, _ => none

/-- Python `bytes.fromhex` (space characters between digits are skipped). -/
def bytesFromHex (s : String) : Option (List Nat) :=
  hexPairs (s.data.filter (fun c => !(c == ' ')))

/-- Python `str.split(':')` at character level (non-overlapping, left to
right, keeping empty groups). -/
def splitColon : List Char → List (List Char)
  | [] => [[]]
  | c :: cs =>
    if c == ':' then [] :: splitColon cs
    else
      match splitColon cs with
      | [] => [[c]]
      | g :: gs => (c :: g) :: gs

/-- Python `str.split(' = ')` at character level (non-overlapping, left
to right). -/
def splitEq : List Char → List (List Char)
  | ' ' :: '=' :: ' ' :: rest => [] :: splitEq rest
  | c :: cs =>
    match splitEq cs with
    | [] => [[c]]
    | g :: gs => (c :: g) :: gs
  | [] => [[]]

/-- Python `caveat.split(' = ')[0]` (a split result is never empty). -/
def splitKey (c : String) : String :=
  match splitEq c.data with
  | [] => ""
  | g :: _ => ⟨g⟩

/-- Python `caveat.split(' = ')[1]`; `none` is an `IndexError`. -/
def splitVal (c : String) : Option String :=
  match splitEq c.data with
  | _ :: g :: _ => some ⟨g⟩
  | _ => none

/-- Whether the second list begins with the first one, character by
character. -/
def listStartsWith : List Char → List Char → Bool
  | [], _ => true
  | _ :: _, [] => false
  | p :: ps, c :: cs => p == c && listStartsWith ps cs

/-- The code's scheme test, literally `l402_key.startswith('LSAT ')`. -/
def startsWithScheme (s : String) : Bool :=
  listStartsWith ['L', 'S', 'A', 'T', ' '] s.data

/-- Python `str.lstrip('LSAT ')`: drops every leading character belonging
to the character set of the argument, not the literal five-character
sequence. -/
def lstripLSAT (s : String) : String :=
  ⟨s.data.dropWhile (fun c => c == 'L' || c == 'S' || c == 'A' || c == 'T' || c == ' ')⟩

/-- Header parsing `l402_key.lstrip('LSAT ').split(':')` unpacked into
exactly two variables; `none` is the `ValueError` mapped to HTTP 400. -/
def parseAuthValue (h : String) : Option (String × String) :=
  match splitColon (lstripLSAT h).data with
  | [mcs, pcs] => some (⟨mcs⟩, ⟨pcs⟩)
  | _ => none

/-- Pricing configuration, from `Pricing.__init__`. -/
structure Pricing where
  price_sats : Option Int
  price_fiat : Option Rat
  conversion_func : Option (Rat → Int)

/-- Embeds `Pricing.__init__`: the three `ValueError` guards in source
order, then the field assignments. -/
def Pricing.make (ps : Option Int) (pf : Option Rat) (cf : Option (Rat → Int)) :
    Except String Pricing :=
  if ps.isSome && pf.isSome then
    Except.error "Must specify either price_sats or price_fiat, but not both."
  else if ps.isNone && pf.isNone then
    Except.error "Must specify either price_sats or price_fiat."
  else if pf.isSome && cf.isNone then
    Except.error "Must provide a conversion function when pricing in fiat."
  else
    Except.ok ⟨ps, pf, cf⟩

/-- A pymacaroons macaroon as used here: identifier, ordered first-party
caveat strings, and the root key the HMAC chain was built from.  The
signature abstraction: `Verifier.verify(m, root_key)` finds the signature
valid exactly when `m.key` equals `root_key`. -/
structure Macaroon where
  identifier : String
  caveats : List String
  key : String
deriving DecidableEq

/-- Minting in the issuance path: `Macaroon(identifier=payment_hash,
key=root_key)` followed by the two `add_first_party_caveat` calls, in
source order. -/
def mint (root_key payment_hash expiry_iso : String) : Macaroon :=
  { identifier := payment_hash
    caveats := ["expires = " ++ expiry_iso, "payment_hash = " ++ payment_hash]
    key := root_key }

/-- Observable outcome of one middleware call.  Most constructors are the
raised `HTTPException` (status recorded by `Outcome.status`); `uncaught`
is an exception escaping the handler with no `HTTPException` raised;
`allow` returns the request to the endpoint. -/
inductive Outcome
  | challenge (m : Macaroon) (invoice : String)
  | invoiceError
  | formatError
  | deserializeError
  | verifyForbidden
  | replayForbidden
  | uncaught (exn : String)
  | allow
deriving DecidableEq

/-- HTTP status code of the HTTPException an outcome raises, if any. -/
def Outcome.status : Outcome → Option Nat
  | .challenge _ _ => some 402
  | .invoiceError => some 500
  | .formatError => some 400
  | .deserializeError => some 400
  | .verifyForbidden => some 403
  | .replayForbidden => some 403
  | .uncaught _ => none
  | .allow => none

/-- The `verified_macaroons` cache: identifier to stored expiry string,
modelled as an association list whose keys are unique (dict invariant). -/
abbrev Registry := List (String × String)

/-- Python dict assignment `d[k] = v`: update in place when the key is
present, append otherwise. -/
def registrySet (reg : Registry) (k v : String) : Registry :=
  if reg.any (fun p => p.1 == k) then
    reg.map (fun p => if p.1 == k then (k, v) else p)
  else
    reg ++ [(k, v)]

/-- The post-verification loop over `macaroon.caveats` that stores the
expires value under the identifier; the `Bool` is `true` when
`split(' = ')[1]` raises `IndexError` (which escapes the handler). -/
def insertExpiresLoop (ident : String) : List String → Registry → Registry × Bool
  | [], reg => (reg, false)
  | c :: cs, reg =>
    if splitKey c = "expires" then
      match splitVal c with
      | some v => insertExpiresLoop ident cs (registrySet reg ident v)
      | none => (reg, true)
    else insertExpiresLoop ident cs reg

/-- The first `satisfy_general` closure: the caveat key must be
`expires` and the live ISO timestamp must be `<=` the caveat value as a
Python string comparison.  `none` is an exception inside the callback. -/
def expiresPred (now c : String) : Option Bool :=
  if splitKey c = "expires" then (splitVal c).map (fun tv => pyStrLe now tv)
  else some false

/-- The second `satisfy_general` closure: the caveat key must be
`payment_hash` and the hex-encoded SHA-256 of the hex-decoded preimage
must equal the caveat value; evaluation order as in the source (key test,
then `bytes.fromhex`, then the index into the split). -/
def paymentHashPred (sha256hex : List Nat → String) (preimage c : String) : Option Bool :=
  if splitKey c = "payment_hash" then
    match bytesFromHex preimage with
    | some bs => (splitVal c).map (fun hv => sha256hex bs == hv)
    | none => none
  else some false

/-- pymacaroons: a first-party caveat is met when some registered general
callback returns truthy, tried in registration order with short-circuit. -/
def caveatMet (sha256hex : List Nat → String) (now preimage c : String) : Option Bool :=
  match expiresPred now c with
  | none => none
  | some true => some true
  | some false => paymentHashPred sha256hex preimage c

/-- Sequential caveat verification: pymacaroons raises at the first unmet
caveat (`some false`) or callback exception (`none`). -/
def verifyCaveats (sha256hex : List Nat → String) (now preimage : String) :
    List String → Option Bool
  | [] => some true
  | c :: cs =>
    match caveatMet sha256hex now preimage c with
    | none => none
    | some false => some false
    | some true => verifyCaveats sha256hex now preimage cs

/-- `Verifier.verify(macaroon, root_key)`: every caveat met, then the
signature (key agreement in this abstraction).  `some true` is the only
successful result; anything else makes `__call__` answer 403. -/
def verifyMacaroon (sha256hex : List Nat → String) (now preimage root_key : String)
    (m : Macaroon) : Option Bool :=
  match verifyCaveats sha256hex now preimage m.caveats with
  | some true => some (m.key == root_key)
  | r => r

/-- The validator with its constructor configuration and its black-box
collaborators.  `generate_invoice` is the bolt11 string the provider
returns for the current request, or the exception it raises;
`decode_payment_hash` is `decode(bolt11).tags['p']`; `iso_add` is
`(now + timedelta(seconds=n)).isoformat()`; `sha256hex` is
`hashlib.sha256(bytes).hexdigest()`; `deserialize` is
`Macaroon.deserialize` with `none` for a raised exception. -/
structure L402Validator where
  root_key : String
  pricing : Pricing
  expiry_sec : Nat
  invoice_description : String
  generate_invoice : Except String String
  decode_payment_hash : String → String
  sha256hex : List Nat → String
  deserialize : String → Option Macaroon
  iso_add : String → Nat → String

/-- The issuance branch of `__call__` (no header or wrong scheme): call
the invoice provider (500 on failure), decode the payment hash, mint and
serialize the macaroon, raise the 402 challenge. -/
def L402Validator.issuance (v : L402Validator) (now : String) (st : Registry) :
    Outcome × Registry :=
  match v.generate_invoice with
  | .error _ => (.invoiceError, st)
  | .ok bolt11 =>
    (.challenge (mint v.root_key (v.decode_payment_hash bolt11) (v.iso_add now v.expiry_sec))
      bolt11, st)

/-- The verification branch of `__call__`: parse (400), deserialize
(400), the unguarded debug `print(hashlib.sha256(bytes.fromhex(preimage))
.hexdigest())` whose `ValueError` escapes, `verifier.verify` inside
try/except (403), the replay check (403), then the expires-insertion
loop and the pass-through. -/
def L402Validator.verification (v : L402Validator) (now : String) (st : Registry)
    (h : String) : Outcome × Registry :=
  match parseAuthValue h with
  | none => (.formatError, st)
  | some (ms, preimage) =>
    match v.deserialize ms with
    | none => (.deserializeError, st)
    | some m =>
      match bytesFromHex preimage with
      | none => (.uncaught "ValueError", st)
      | some _ =>
        match verifyMacaroon v.sha256hex now preimage v.root_key m with
        | some true =>
          if st.any (fun p => p.1 == m.identifier) then (.replayForbidden, st)
          else
            match insertExpiresLoop m.identifier m.caveats st with
            | (st', true) => (.uncaught "IndexError", st')
            | (st', false) => (.allow, st')
        | _ => (.verifyForbidden, st)

/-- `L402Validator.__call__` on one request: the issuance branch runs
when the Authorization header is absent or does not start with the
scheme string, the verification branch otherwise. -/
def L402Validator.call (v : L402Validator) (now : String) (st : Registry)
    (auth : Option String) : Outcome × Registry :=
  match auth with
  | none => v.issuance now st
  | some h =>
    if startsWithScheme h then v.verification now st h
    else v.issuance now st

/-- One sweep of `cleanup_expired_macaroons`: list the identifiers whose
stored expiry is lexicographically before `now`, then delete each from
the dict. -/
def cleanup_expired_macaroons (now : String) (reg : Registry) : Registry :=
  let expired := (reg.filter (fun p => pyStrLt p.2 now)).map Prod.fst
  expired.foldl (fun r i => r.filter (fun p => !(p.1 == i))) reg

/-- A sequence of later middleware calls on the same validator, threading
the registry state. -/
def runSeq (v : L402Validator) (steps : List (String × Option String)) (st : Registry) :
    Registry :=
  steps.foldl (fun s p => (v.call p.1 s p.2).2) st

/-- Outcomes only the issuance branch produces. -/
def issuanceOutcome (o : Outcome) : Prop :=
  (∃ m i, o = Outcome.challenge m i) ∨ o = Outcome.invoiceError

/-- Concrete macaroon for the replay-claim witness: both caveats, signed
with the root key of `vW1`. -/
def macW1 : Macaroon :=
  { identifier := "idA", caveats := ["expires = 5", "payment_hash = hh"], key := "k" }

/-- Concrete validator for the replay-claim witness. -/
def vW1 : L402Validator :=
  { root_key := "k", pricing := ⟨some 1, none, none⟩, expiry_sec := 60
    invoice_description := "d"
    generate_invoice := Except.ok "lnbc1"
    decode_payment_hash := fun _ => "ph"
    sha256hex := fun _ => "hh"
    deserialize := fun _ => some macW1
    iso_add := fun n _ => n }

/-- Concrete macaroon for the replay counterexample: a validly signed
credential with a correct payment hash caveat but no expires caveat. -/
def macX1 : Macaroon :=
  { identifier := "idB", caveats := ["payment_hash = hh"], key := "k" }

/-- Concrete validator for the replay counterexample. -/
def vX1 : L402Validator :=
  { root_key := "k", pricing := ⟨some 1, none, none⟩, expiry_sec := 60
    invoice_description := "d"
    generate_invoice := Except.ok "lnbc1"
    decode_payment_hash := fun _ => "ph"
    sha256hex := fun _ => "hh"
    deserialize := fun _ => some macX1
    iso_add := fun n _ => n }

/-- Concrete macaroon for the preimage claim: carries a payment hash
caveat, so the preimage check applies. -/
def macC2 : Macaroon :=
  { identifier := "idC", caveats := ["payment_hash = hh"], key := "k" }

/-- Concrete validator for the preimage claim. -/
def vC2 : L402Validator :=
  { root_key := "k", pricing := ⟨some 1, none, none⟩, expiry_sec := 60
    invoice_description := "d"
    generate_invoice := Except.ok "lnbc1"
    decode_payment_hash := fun _ => "ph"
    sha256hex := fun _ => "hh"
    deserialize := fun _ => some macC2
    iso_add := fun n _ => n }

/-- Concrete validator for the dispatch counterexample. -/
def vC4 : L402Validator :=
  { root_key := "k", pricing := ⟨some 1, none, none⟩, expiry_sec := 60
    invoice_description := "d"
    generate_invoice := Except.ok "lnbc1"
    decode_payment_hash := fun _ => "ph"
    sha256hex := fun _ => "hh"
    deserialize := fun _ => none
    iso_add := fun n _ => n }

/-- Concrete macaroon for the expiry witness: expires caveat already in
the past at verification time. -/
def macW3 : Macaroon :=
  { identifier := "idD", caveats := ["expires = 3", "payment_hash = hh"], key := "k" }

/-- Concrete validator for the expiry witness. -/
def vW3 : L402Validator :=
  { root_key := "k", pricing := ⟨some 1, none, none⟩, expiry_sec := 60
    invoice_description := "d"
    generate_invoice := Except.ok "lnbc1"
    decode_payment_hash := fun _ => "ph"
    sha256hex := fun _ => "hh"
    deserialize := fun _ => some macW3
    iso_add := fun n _ => n }

/-- Concrete validator for the issuance witness. -/
def vW6 : L402Validator :=
  { root_key := "k", pricing := ⟨some 10, none, none⟩, expiry_sec := 60
    invoice_description := "d"
    generate_invoice := Except.ok "lnbc99"
    decode_payment_hash := fun _ => "ph99"
    sha256hex := fun _ => "hh"
    deserialize := fun _ => none
    iso_add := fun n _ => String.append n "+60" }

/-- Concrete macaroon for the unrecognized-caveat witness. -/
def macW7 : Macaroon :=
  { identifier := "idE", caveats := ["foo = bar"], key := "k" }

/-- Concrete validator for the unrecognized-caveat witness. -/
def vW7 : L402Validator :=
  { root_key := "k", pricing := ⟨some 1, none, none⟩, expiry_sec := 60
    invoice_description := "d"
    generate_invoice := Except.ok "lnbc1"
    decode_payment_hash := fun _ => "ph"
    sha256hex := fun _ => "hh"
    deserialize := fun _ => some macW7
    iso_add := fun n _ => n }

/-- Concrete macaroon for the insertion-condition witness: validly
signed, correct payment hash caveat, no expires caveat. -/
def macW10 : Macaroon :=
  { identifier := "idF", caveats := ["payment_hash = hh"], key := "k" }

/-- Concrete validator for the insertion-condition witness. -/
def vW10 : L402Validator :=
  { root_key := "k", pricing := ⟨some 1, none, none⟩, expiry_sec := 60
    invoice_description := "d"
    generate_invoice := Except.ok "lnbc1"
    decode_payment_hash := fun _ => "ph"
    sha256hex := fun _ => "hh"
    deserialize := fun _ => some macW10
    iso_add := fun n _ => n }

/-- Keys of the registry after a dict assignment: unchanged when the key
was present, the key appended otherwise. -/
theorem registrySet_map_fst (reg : Registry) (k v : String) :
    (registrySet reg k v).map Prod.fst =
      if reg.any (fun p => p.1 == k) then reg.map Prod.fst
      else reg.map Prod.fst ++ [k] := by
  unfold registrySet
  split
  · rw [List.map_map]
    refine List.map_congr_left ?_
    intro p _
    by_cases hp : p.1 = k <;> simp [hp]
  · simp

/-- A dict assignment makes its key present. -/
theorem mem_keys_registrySet_self (reg : Registry) (k v : String) :
    k ∈ (registrySet reg k v).map Prod.fst := by
  rw [registrySet_map_fst]
  split
  · rename_i hany
    rw [List.any_eq_true] at hany
    obtain ⟨p, hp, hpk⟩ := hany
    rw [beq_iff_eq] at hpk
    exact List.mem_map.mpr ⟨p, hp, hpk⟩
  · simp

/-- A dict assignment never removes a key. -/
theorem mem_keys_registrySet_mono (reg : Registry) (k v i : String)
    (h : i ∈ reg.map Prod.fst) : i ∈ (registrySet reg k v).map Prod.fst := by
  rw [registrySet_map_fst]
  split
  · exact h
  · exact List.mem_append_left _ h

/-- The expires-insertion loop never removes a key, whether or not it
raises. -/
theorem insertExpiresLoop_keys_mono (ident : String) (cs : List String) (reg : Registry)
    (i : String) (h : i ∈ reg.map Prod.fst) :
    i ∈ (insertExpiresLoop ident cs reg).1.map Prod.fst := by
  induction cs generalizing reg with
  | nil => simpa [insertExpiresLoop] using h
  | cons c cs ih =>
    unfold insertExpiresLoop
    split
    · cases hv : splitVal c with
      | some v =>
        simpa using ih (registrySet reg ident v) (mem_keys_registrySet_mono reg ident v i h)
      | none => simpa using h
    · exact ih reg h

/-- If the expires-insertion loop completes without raising and some
caveat has the expires key, the identifier ends up in the registry. -/
theorem insertExpiresLoop_inserts (ident : String) (cs : List String) (reg reg' : Registry)
    (hrun : insertExpiresLoop ident cs reg = (reg', false))
    (hex : ∃ c ∈ cs, splitKey c = "expires") :
    ident ∈ reg'.map Prod.fst := by
  induction cs generalizing reg with
  | nil =>
    obtain ⟨c, hc, _⟩ := hex
    exact absurd hc (List.not_mem_nil c)
  | cons c cs ih =>
    obtain ⟨c0, hc0, hkey⟩ := hex
    by_cases hc : splitKey c = "expires"
    · cases hv : splitVal c with
      | none =>
        simp only [insertExpiresLoop, if_pos hc, hv] at hrun
        simp at hrun
      | some v =>
        simp only [insertExpiresLoop, if_pos hc, hv] at hrun
        have h1 : ident ∈ (registrySet reg ident v).map Prod.fst :=
          mem_keys_registrySet_self reg ident v
        have h2 := insertExpiresLoop_keys_mono ident cs (registrySet reg ident v) ident h1
        rw [hrun] at h2
        exact h2
    · simp only [insertExpiresLoop, if_neg hc] at hrun
      rcases List.mem_cons.mp hc0 with h0 | h0
      · exact absurd (h0 ▸ hkey) hc
      · exact ih reg hrun ⟨c0, h0, hkey⟩

/-- With no expires-keyed caveat, the insertion loop is the identity. -/
theorem insertExpiresLoop_no_expires (ident : String) (cs : List String) (reg : Registry)
    (h : ∀ c ∈ cs, ¬ splitKey c = "expires") :
    insertExpiresLoop ident cs reg = (reg, false) := by
  induction cs generalizing reg with
  | nil => rfl
  | cons c cs ih =>
    unfold insertExpiresLoop
    rw [if_neg (h c (List.mem_cons_self c cs))]
    exact ih reg (fun c' hc' => h c' (List.mem_cons_of_mem c hc'))

/-- When every expires-keyed caveat has an index-1 field, the insertion
loop does not raise. -/
theorem insertExpiresLoop_no_exn (ident : String) (cs : List String) (reg : Registry)
    (h : ∀ c ∈ cs, splitKey c = "expires" → (splitVal c).isSome) :
    (insertExpiresLoop ident cs reg).2 = false := by
  induction cs generalizing reg with
  | nil => rfl
  | cons c cs ih =>
    unfold insertExpiresLoop
    by_cases hc : splitKey c = "expires"
    · rw [if_pos hc]
      cases hv : splitVal c with
      | none =>
        have := h c (List.mem_cons_self c cs) hc
        rw [hv] at this
        simp at this
      | some v => exact ih (registrySet reg ident v) (fun c' h1 h2 => h c' (List.mem_cons_of_mem c h1) h2)
    · rw [if_neg hc]
      exact ih reg (fun c' h1 h2 => h c' (List.mem_cons_of_mem c h1) h2)

/-- Successful caveat verification means every caveat was met. -/
theorem verifyCaveats_all (sha : List Nat → String) (now pre : String) (cs : List String)
    (h : verifyCaveats sha now pre cs = some true) :
    ∀ c ∈ cs, caveatMet sha now pre c = some true := by
  induction cs with
  | nil =>
    intro c hc
    exact absurd hc (List.not_mem_nil c)
  | cons c0 cs ih =>
    intro c' hc'
    cases hm : caveatMet sha now pre c0 with
    | none => simp [verifyCaveats, hm] at h
    | some b =>
      cases b with
      | false => simp [verifyCaveats, hm] at h
      | true =>
        simp only [verifyCaveats, hm] at h
        rcases List.mem_cons.mp hc' with h0 | h0
        · exact h0 ▸ hm
        · exact ih h c' h0

/-- One caveat that is not met (or raises) makes the whole caveat walk
fail. -/
theorem verifyCaveats_stuck (sha : List Nat → String) (now pre : String) (cs : List String)
    (c : String) (hc : c ∈ cs) (hm : caveatMet sha now pre c ≠ some true) :
    verifyCaveats sha now pre cs ≠ some true := by
  induction cs with
  | nil => exact absurd hc (List.not_mem_nil c)
  | cons c0 cs ih =>
    cases h0 : caveatMet sha now pre c0 with
    | none => simp [verifyCaveats, h0]
    | some b =>
      cases b with
      | false => simp [verifyCaveats, h0]
      | true =>
        simp only [verifyCaveats, h0]
        rcases List.mem_cons.mp hc with h1 | h1
        · exact absurd (h1 ▸ h0) hm
        · exact ih h1

/-- A met caveat with the expires key carries a timestamp field the
current time is below (in the Python string order). -/
theorem caveatMet_expires (sha : List Nat → String) (now pre c : String)
    (hkey : splitKey c = "expires")
    (h : caveatMet sha now pre c = some true) :
    ∃ tv, splitVal c = some tv ∧ pyStrLe now tv = true := by
  have hkey2 : splitKey c ≠ "payment_hash" := by rw [hkey]; decide
  cases hv : splitVal c with
  | none => simp [caveatMet, expiresPred, hkey, hv] at h
  | some tv =>
    refine ⟨tv, rfl, ?_⟩
    by_contra hle
    rw [Bool.not_eq_true] at hle
    simp [caveatMet, expiresPred, paymentHashPred, hkey, hv, hle, hkey2] at h

/-- Verification cannot succeed when the caveat walk does not. -/
theorem verifyMacaroon_not_true (sha : List Nat → String) (now pre rk : String)
    (m : Macaroon) (h : verifyCaveats sha now pre m.caveats ≠ some true) :
    verifyMacaroon sha now pre rk m ≠ some true := by
  unfold verifyMacaroon
  cases hv : verifyCaveats sha now pre m.caveats with
  | none => simp
  | some b =>
    cases b with
    | false => simp
    | true => exact absurd hv h

/-- With the scheme present, `__call__` runs the verification branch. -/
theorem call_scheme_eq (v : L402Validator) (now : String) (st : Registry) (h : String)
    (hs : startsWithScheme h = true) :
    v.call now st (some h) = v.verification now st h := by
  unfold L402Validator.call
  simp [hs]

/-- The verification branch after parsing, deserialization and the debug
hash print all go through. -/
theorem verification_unfold (v : L402Validator) (now : String) (st : Registry)
    (h ms pre : String) (m : Macaroon) (bs : List Nat)
    (hp : parseAuthValue h = some (ms, pre))
    (hd : v.deserialize ms = some m)
    (hb : bytesFromHex pre = some bs) :
    v.verification now st h =
      match verifyMacaroon v.sha256hex now pre v.root_key m with
      | some true =>
        if st.any (fun p => p.1 == m.identifier) then (Outcome.replayForbidden, st)
        else
          match insertExpiresLoop m.identifier m.caveats st with
          | (st', true) => (Outcome.uncaught "IndexError", st')
          | (st', false) => (Outcome.allow, st')
      | _ => (Outcome.verifyForbidden, st) := by
  unfold L402Validator.verification
  simp only [hp, hd, hb]

/-- The issuance branch never touches the registry. -/
theorem issuance_snd (v : L402Validator) (now : String) (st : Registry) :
    (v.issuance now st).2 = st := by
  unfold L402Validator.issuance
  cases hg : v.generate_invoice <;> simp

/-- A middleware call never removes a registry key. -/
theorem call_keys_mono (v : L402Validator) (now : String) (st : Registry)
    (auth : Option String) (i : String) (h : i ∈ st.map Prod.fst) :
    i ∈ (v.call now st auth).2.map Prod.fst := by
  have hiss : ∀ now', i ∈ (v.issuance now' st).2.map Prod.fst := by
    intro now'
    rw [issuance_snd]
    exact h
  cases auth with
  | none => exact hiss now
  | some hh =>
    unfold L402Validator.call
    by_cases hs : startsWithScheme hh
    · simp only [hs, if_true]
      unfold L402Validator.verification
      cases hp : parseAuthValue hh with
      | none => simp only [hp]; exact h
      | some pr =>
        obtain ⟨ms, pre⟩ := pr
        simp only [hp]
        cases hd : v.deserialize ms with
        | none => simp only [hd]; exact h
        | some m =>
          simp only [hd]
          cases hb : bytesFromHex pre with
          | none => simp only [hb]; exact h
          | some bs =>
            simp only [hb]
            cases hv : verifyMacaroon v.sha256hex now pre v.root_key m with
            | none => simp only [hv]; exact h
            | some b =>
              cases b with
              | false => simp only [hv]; exact h
              | true =>
                simp only [hv]
                by_cases hany : st.any (fun p => p.1 == m.identifier) = true
                · rw [if_pos hany]
                  exact h
                · rw [if_neg hany]
                  have hmono := insertExpiresLoop_keys_mono m.identifier m.caveats st i h
                  cases hloop : insertExpiresLoop m.identifier m.caveats st with
                  | mk st2 b2 =>
                    rw [hloop] at hmono
                    cases b2 <;> simpa using hmono
    · simp only [hs, if_false, Bool.false_eq_true]
      exact hiss now

/-- Registry keys survive any sequence of later middleware calls. -/
theorem runSeq_keys_mono (v : L402Validator) (steps : List (String × Option String))
    (st : Registry) (i : String) (h : i ∈ st.map Prod.fst) :
    i ∈ (runSeq v steps st).map Prod.fst := by
  induction steps generalizing st with
  | nil => exact h
  | cons p ps ih => exact ih (v.call p.1 st p.2).2 (call_keys_mono v p.1 st p.2 i h)

/-- The replay-check condition is registry-key membership. -/
theorem any_fst_eq_true_iff (st : Registry) (i : String) :
    st.any (fun p => p.1 == i) = true ↔ i ∈ st.map Prod.fst := by
  rw [List.any_eq_true]
  constructor
  · rintro ⟨p, hp, hpk⟩
    rw [beq_iff_eq] at hpk
    exact List.mem_map.mpr ⟨p, hp, hpk⟩
  · intro hm
    obtain ⟨p, hp, hpk⟩ := List.mem_map.mp hm
    exact ⟨p, hp, by rw [beq_iff_eq]; exact hpk⟩

/-- Any verification call whose identifier is already a registry key
answers 403, and answers the replay message exactly when the macaroon
itself verifies. -/
theorem call_with_member_403 (v : L402Validator) (now : String) (st : Registry)
    (h ms pre : String) (m : Macaroon) (bs : List Nat)
    (hs : startsWithScheme h = true)
    (hp : parseAuthValue h = some (ms, pre))
    (hd : v.deserialize ms = some m)
    (hb : bytesFromHex pre = some bs)
    (hmem : m.identifier ∈ st.map Prod.fst) :
    (v.call now st (some h)).1.status = some 403 ∧
    (verifyMacaroon v.sha256hex now pre v.root_key m = some true →
     (v.call now st (some h)).1 = Outcome.replayForbidden) := by
  have hany : st.any (fun p => p.1 == m.identifier) = true :=
    (any_fst_eq_true_iff st m.identifier).mpr hmem
  rw [call_scheme_eq v now st h hs, verification_unfold v now st h ms pre m bs hp hd hb]
  cases hv : verifyMacaroon v.sha256hex now pre v.root_key m with
  | none => exact ⟨rfl, fun hc => by simp at hc⟩
  | some b =>
    cases b with
    | false => exact ⟨rfl, fun hc => by simp at hc⟩
    | true =>
      rw [if_pos hany]
      exact ⟨rfl, fun _ => rfl⟩

/-- The verification branch never produces an issuance outcome. -/
theorem verification_not_issuance (v : L402Validator) (now : String) (st : Registry)
    (h : String) : ¬ issuanceOutcome (v.verification now st h).1 := by
  cases hp : parseAuthValue h with
  | none => simp [issuanceOutcome, L402Validator.verification, hp]
  | some pr =>
    obtain ⟨ms, pre⟩ := pr
    cases hd : v.deserialize ms with
    | none => simp [issuanceOutcome, L402Validator.verification, hp, hd]
    | some m =>
      cases hb : bytesFromHex pre with
      | none => simp [issuanceOutcome, L402Validator.verification, hp, hd, hb]
      | some bs =>
        cases hv : verifyMacaroon v.sha256hex now pre v.root_key m with
        | none => simp [issuanceOutcome, L402Validator.verification, hp, hd, hb, hv]
        | some b =>
          cases b with
          | false => simp [issuanceOutcome, L402Validator.verification, hp, hd, hb, hv]
          | true =>
            by_cases hany : st.any (fun p => p.1 == m.identifier) = true
            · simp [issuanceOutcome, L402Validator.verification, hp, hd, hb, hv, hany]
            · cases hloop : insertExpiresLoop m.identifier m.caveats st with
              | mk st2 b2 =>
                cases b2 <;>
                  simp [issuanceOutcome, L402Validator.verification, hp, hd, hb, hv, hany, hloop]

/-- Deleting a list of keys from the registry one at a time equals one
filter against membership in that list. -/
theorem foldl_filter_del (ids : List String) (reg : Registry) :
    ids.foldl (fun r i => r.filter (fun p => !(p.1 == i))) reg =
      reg.filter (fun p => !(ids.contains p.1)) := by
  induction ids generalizing reg with
  | nil => simp
  | cons i ids ih =>
    simp only [List.foldl_cons]
    rw [ih, List.filter_filter]
    refine List.filter_congr ?_
    intro p _
    cases hpi : p.1 == i with
    | false =>
      have hne : p.1 ≠ i := by simpa using hpi
      simp [List.contains_cons, hpi, hne]
    | true =>
      have heq : p.1 = i := by simpa using hpi
      simp [List.contains_cons, hpi, heq]

/-- In a registry with unique keys, a key determines its stored value. -/
theorem keys_nodup_val_unique (reg : Registry) (hnd : (reg.map Prod.fst).Nodup)
    (i e e' : String) (h1 : (i, e) ∈ reg) (h2 : (i, e') ∈ reg) : e = e' := by
  induction reg with
  | nil => cases h1
  | cons p ps ih =>
    obtain ⟨a, b⟩ := p
    rw [List.map_cons, List.nodup_cons] at hnd
    rcases List.mem_cons.mp h1 with h1e | h1m
    · rcases List.mem_cons.mp h2 with h2e | h2m
      · rw [Prod.mk.injEq] at h1e h2e
        rw [h1e.2, h2e.2]
      · rw [Prod.mk.injEq] at h1e
        exfalso
        apply hnd.1
        rw [← h1e.1]
        exact List.mem_map.mpr ⟨(i, e'), h2m, rfl⟩
    · rcases List.mem_cons.mp h2 with h2e | h2m
      · rw [Prod.mk.injEq] at h2e
        exfalso
        apply hnd.1
        rw [← h2e.1]
        exact List.mem_map.mpr ⟨(i, e), h1m, rfl⟩
      · exact ih hnd.2 h1m h2m

/-- C9: Pricing construction raises an error exactly when both of
price_sats and price_fiat are supplied, or neither is, or price_fiat is
supplied without a conversion function; in every other case it succeeds,
stores the arguments, and exactly one of fixed-sats or
fiat-plus-converter is set. -/
theorem claim_C9_pricing_construction (ps : Option Int) (pf : Option Rat)
    (cf : Option (Rat → Int)) :
    ((∃ e, Pricing.make ps pf cf = Except.error e) ↔
      ((ps.isSome = true ∧ pf.isSome = true) ∨ (ps.isNone = true ∧ pf.isNone = true) ∨
       (pf.isSome = true ∧ cf.isNone = true))) ∧
    (∀ pr : Pricing, Pricing.make ps pf cf = Except.ok pr →
      pr.price_sats = ps ∧ pr.price_fiat = pf ∧ pr.conversion_func = cf ∧
      ((ps.isSome = true ∧ pf.isNone = true) ∨
       (ps.isNone = true ∧ pf.isSome = true ∧ cf.isSome = true))) := by
  constructor
  · cases ps <;> cases pf <;> cases cf <;> simp [Pricing.make]
  · intro pr hpr
    cases ps <;> cases pf <;> cases cf <;> simp [Pricing.make] at hpr <;>
      (try subst hpr) <;> simp

/-- C9 witness: a fixed-sats configuration constructs successfully and
satisfies the exactly-one invariant. -/
theorem claim_C9_witness :
    (⟨some 5, none, none⟩ : Pricing).price_sats = some 5 ∧
    (⟨some 5, none, none⟩ : Pricing).price_fiat = none ∧
    (⟨some 5, none, none⟩ : Pricing).conversion_func = none ∧
    (((some 5 : Option Int).isSome = true ∧ (none : Option Rat).isNone = true) ∨
     ((some 5 : Option Int).isNone = true ∧ (none : Option Rat).isSome = true ∧
      (none : Option (Rat → Int)).isSome = true)) :=
  (claim_C9_pricing_construction (some 5) none none).2 ⟨some 5, none, none⟩ rfl

/-- C8: one reaper sweep removes exactly the registry entries whose
stored expiry is strictly before the current time at sweep time, and
leaves every other entry, with its associated value, present. -/
theorem claim_C8_reaper_exact (now : String) (reg : Registry)
    (hnd : (reg.map Prod.fst).Nodup) (i e : String) :
    (i, e) ∈ cleanup_expired_macaroons now reg ↔
      ((i, e) ∈ reg ∧ pyStrLt e now = false) := by
  unfold cleanup_expired_macaroons
  rw [foldl_filter_del, List.mem_filter]
  constructor
  · rintro ⟨hmem, hb⟩
    refine ⟨hmem, ?_⟩
    cases hlt : pyStrLt e now with
    | false => rfl
    | true =>
      exfalso
      have hin : i ∈ (reg.filter (fun p => pyStrLt p.2 now)).map Prod.fst :=
        List.mem_map.mpr ⟨(i, e), List.mem_filter.mpr ⟨hmem, hlt⟩, rfl⟩
      have hcon : ((reg.filter (fun p => pyStrLt p.2 now)).map Prod.fst).contains i = true := by
        simpa using hin
      rw [hcon] at hb
      simp at hb
  · rintro ⟨hmem, hlt⟩
    refine ⟨hmem, ?_⟩
    have hnotin : i ∉ (reg.filter (fun p => pyStrLt p.2 now)).map Prod.fst := by
      intro hin
      obtain ⟨p, hpf, hpi⟩ := List.mem_map.mp hin
      obtain ⟨hpmem, hplt⟩ := List.mem_filter.mp hpf
      obtain ⟨a, b⟩ := p
      have hab : a = i := hpi
      rw [hab] at hpmem
      have heb : e = b := keys_nodup_val_unique reg hnd i e b hmem hpmem
      rw [← heb] at hplt
      rw [hplt] at hlt
      cases hlt
    have : ((reg.filter (fun p => pyStrLt p.2 now)).map Prod.fst).contains i = false := by
      cases hc : ((reg.filter (fun p => pyStrLt p.2 now)).map Prod.fst).contains i with
      | false => rfl
      | true =>
        exfalso
        apply hnotin
        simpa using hc
    rw [this]
    rfl

/-- C8 witness: a sweep at time 5 keeps the unexpired entry of a
two-entry registry. -/
theorem claim_C8_witness :
    ("b", "9") ∈ cleanup_expired_macaroons "5" [("a", "1"), ("b", "9")] ↔
      (("b", "9") ∈ ([("a", "1"), ("b", "9")] : Registry) ∧ pyStrLt "9" "5" = false) :=
  claim_C8_reaper_exact "5" [("a", "1"), ("b", "9")] (by decide) "b" "9"

/-- C4 (amended): the issuance (402-challenge) path runs exactly when
the Authorization header is absent or does not begin with the scheme
string actually used by the code, which is the legacy `LSAT ` rather
than `L402 `; equivalently, the verification path runs exactly when the
header is present and begins with `LSAT `. -/
theorem claim_C4_scheme_dispatch (v : L402Validator) (now : String) (st : Registry)
    (auth : Option String) :
    issuanceOutcome (v.call now st auth).1 ↔
      (auth = none ∨ ∃ h, auth = some h ∧ startsWithScheme h = false) := by
  constructor
  · intro hio
    cases auth with
    | none => exact Or.inl rfl
    | some h =>
      by_cases hs : startsWithScheme h = true
      · exfalso
        rw [call_scheme_eq v now st h hs] at hio
        exact verification_not_issuance v now st h hio
      · exact Or.inr ⟨h, rfl, by simpa using hs⟩
  · intro hcase
    have hcall : v.call now st auth = v.issuance now st := by
      rcases hcase with rfl | ⟨h, rfl, hs⟩
      · rfl
      · unfold L402Validator.call
        simp [hs]
    rw [hcall]
    unfold L402Validator.issuance
    cases hg : v.generate_invoice with
    | error e => exact Or.inr rfl
    | ok b => exact Or.inl ⟨_, _, rfl⟩

/-- C4 counterexample: a present header that begins with `L402 ` (the
prefix the claim names) is sent down the issuance path, not the
verification path: the call answers with the 402 challenge. -/
theorem claim_C4_counterexample :
    listStartsWith ['L', '4', '0', '2', ' '] ("L402 x:00").data = true ∧
    vC4.call "t" [] (some "L402 x:00") = (Outcome.challenge (mint "k" "ph" "t") "lnbc1", []) ∧
    issuanceOutcome (vC4.call "t" [] (some "L402 x:00")).1 :=
  ⟨rfl, rfl, Or.inl ⟨mint "k" "ph" "t", "lnbc1", rfl⟩⟩

/-- C5: on the failing input the header parser does not extract the
serialized-credential substring between the prefix and the colon:
`lstrip('LSAT ')` strips by character set, so the credential `ABCmac`
is truncated to `BCmac`. -/
theorem claim_C5_lstrip_truncates :
    lstripLSAT "LSAT ABCmac:00" = "BCmac:00" ∧
    parseAuthValue "LSAT ABCmac:00" = some ("BCmac", "00") ∧
    "BCmac" ≠ "ABCmac" ∧
    parseAuthValue "LSAT nocolon" = none ∧
    parseAuthValue "LSAT a:b:c" = none :=
  ⟨rfl, rfl, by decide, rfl, rfl⟩

/-- C2: on the failing input (non-hex preimage `zz` against a credential
carrying a payment-hash caveat) the call does not produce a 403
HTTPException; the `ValueError` from the unguarded debug hash print
escapes the handler. -/
theorem claim_C2_nonhex_uncaught :
    vC2.call "t" [] (some "LSAT x:zz") = (Outcome.uncaught "ValueError", []) ∧
    (Outcome.uncaught "ValueError").status ≠ some 403 ∧
    vC2.call "t" [] (some "LSAT x:00") = (Outcome.allow, []) :=
  ⟨rfl, by decide, rfl⟩

/-- C6: under any valid pricing configuration, a successful issuance
answers the 402 challenge with a credential whose identifier is the
payment hash decoded from the generated invoice and whose caveats are
exactly the expires string and the payment-hash string for that same
hash. -/
theorem claim_C6_mint_payment_hash
    (ps : Option Int) (pf : Option Rat) (cf : Option (Rat → Int))
    (v : L402Validator) (now : String) (st : Registry) (auth : Option String)
    (bolt11 : String)
    (_hpr : Pricing.make ps pf cf = Except.ok v.pricing)
    (hissue : auth = none ∨ ∃ h, auth = some h ∧ startsWithScheme h = false)
    (hinv : v.generate_invoice = Except.ok bolt11) :
    (v.call now st auth).1 =
      Outcome.challenge
        (mint v.root_key (v.decode_payment_hash bolt11) (v.iso_add now v.expiry_sec)) bolt11 ∧
    (mint v.root_key (v.decode_payment_hash bolt11) (v.iso_add now v.expiry_sec)).identifier =
      v.decode_payment_hash bolt11 ∧
    (mint v.root_key (v.decode_payment_hash bolt11) (v.iso_add now v.expiry_sec)).caveats =
      ["expires = " ++ v.iso_add now v.expiry_sec,
       "payment_hash = " ++ v.decode_payment_hash bolt11] := by
  refine ⟨?_, rfl, rfl⟩
  have hcall : v.call now st auth = v.issuance now st := by
    rcases hissue with rfl | ⟨h, rfl, hs⟩
    · rfl
    · unfold L402Validator.call
      simp [hs]
  rw [hcall]
  unfold L402Validator.issuance
  rw [hinv]

/-- C6 witness: the concrete validator issues the expected challenge for
a missing header. -/
theorem claim_C6_witness :
    (vW6.call "t0" [] none).1 =
      Outcome.challenge
        (mint vW6.root_key (vW6.decode_payment_hash "lnbc99") (vW6.iso_add "t0" vW6.expiry_sec))
        "lnbc99" ∧
    (mint vW6.root_key (vW6.decode_payment_hash "lnbc99")
        (vW6.iso_add "t0" vW6.expiry_sec)).identifier = vW6.decode_payment_hash "lnbc99" ∧
    (mint vW6.root_key (vW6.decode_payment_hash "lnbc99")
        (vW6.iso_add "t0" vW6.expiry_sec)).caveats =
      ["expires = " ++ vW6.iso_add "t0" vW6.expiry_sec,
       "payment_hash = " ++ vW6.decode_payment_hash "lnbc99"] :=
  claim_C6_mint_payment_hash (some 10) none none vW6 "t0" [] none "lnbc99" rfl (Or.inl rfl) rfl

/-- C3: a verification attempt presenting a credential carrying an
expires caveat whose timestamp is before the current time (the Python
string comparison of ISO timestamps the source performs) fails with a
403 outcome, whatever preimage is presented. -/
theorem claim_C3_expired_always_403
    (v : L402Validator) (now : String) (st : Registry)
    (h ms pre : String) (m : Macaroon) (bs : List Nat) (c tv : String)
    (hs : startsWithScheme h = true)
    (hp : parseAuthValue h = some (ms, pre))
    (hd : v.deserialize ms = some m)
    (hb : bytesFromHex pre = some bs)
    (hc : c ∈ m.caveats)
    (hkey : splitKey c = "expires")
    (hv : splitVal c = some tv)
    (hlt : pyStrLt tv now = true) :
    (v.call now st (some h)).1 = Outcome.verifyForbidden ∧
    (v.call now st (some h)).1.status = some 403 := by
  have hle : pyStrLe now tv = false := by
    unfold pyStrLe
    unfold pyStrLt at hlt
    rw [hlt]
    rfl
  have hk2 : ("expires" : String) ≠ "payment_hash" := by decide
  have hcm : caveatMet v.sha256hex now pre c = some false := by
    simp [caveatMet, expiresPred, paymentHashPred, hkey, hv, hle, hk2]
  have hstuck := verifyCaveats_stuck v.sha256hex now pre m.caveats c hc (by rw [hcm]; simp)
  have hnv := verifyMacaroon_not_true v.sha256hex now pre v.root_key m hstuck
  rw [call_scheme_eq v now st h hs, verification_unfold v now st h ms pre m bs hp hd hb]
  cases hvm : verifyMacaroon v.sha256hex now pre v.root_key m with
  | none => exact ⟨rfl, rfl⟩
  | some b =>
    cases b with
    | false => exact ⟨rfl, rfl⟩
    | true => exact absurd hvm hnv

/-- C3 witness: at time 5, a credential whose expires caveat reads 3 is
refused with 403 despite a correct preimage. -/
theorem claim_C3_witness :
    (vW3.call "5" [] (some "LSAT x:00")).1 = Outcome.verifyForbidden ∧
    (vW3.call "5" [] (some "LSAT x:00")).1.status = some 403 :=
  claim_C3_expired_always_403 vW3 "5" [] "LSAT x:00" "x" "00" macW3 [0] "expires = 3" "3"
    rfl rfl rfl rfl (by decide) rfl rfl rfl

/-- C7: a presented credential carrying a caveat whose key is neither
`expires` nor `payment_hash` always fails verification, and the call
answers 403 (closed predicate set). -/
theorem claim_C7_unrecognized_caveat
    (v : L402Validator) (now : String) (st : Registry)
    (h ms pre : String) (m : Macaroon) (bs : List Nat) (c : String)
    (hs : startsWithScheme h = true)
    (hp : parseAuthValue h = some (ms, pre))
    (hd : v.deserialize ms = some m)
    (hb : bytesFromHex pre = some bs)
    (hc : c ∈ m.caveats)
    (hk1 : splitKey c ≠ "expires")
    (hk2 : splitKey c ≠ "payment_hash") :
    (v.call now st (some h)).1 = Outcome.verifyForbidden ∧
    (v.call now st (some h)).1.status = some 403 := by
  have hcm : caveatMet v.sha256hex now pre c = some false := by
    simp [caveatMet, expiresPred, paymentHashPred, hk1, hk2]
  have hstuck := verifyCaveats_stuck v.sha256hex now pre m.caveats c hc (by rw [hcm]; simp)
  have hnv := verifyMacaroon_not_true v.sha256hex now pre v.root_key m hstuck
  rw [call_scheme_eq v now st h hs, verification_unfold v now st h ms pre m bs hp hd hb]
  cases hvm : verifyMacaroon v.sha256hex now pre v.root_key m with
  | none => exact ⟨rfl, rfl⟩
  | some b =>
    cases b with
    | false => exact ⟨rfl, rfl⟩
    | true => exact absurd hvm hnv

/-- C7 witness: a credential whose only caveat is `foo = bar` is refused
with 403. -/
theorem claim_C7_witness :
    (vW7.call "5" [] (some "LSAT x:00")).1 = Outcome.verifyForbidden ∧
    (vW7.call "5" [] (some "LSAT x:00")).1.status = some 403 :=
  claim_C7_unrecognized_caveat vW7 "5" [] "LSAT x:00" "x" "00" macW7 [0] "foo = bar"
    rfl rfl rfl rfl (by decide) (by decide) (by decide)

/-- C1 (amended): once a verification call presenting an identifier has
succeeded with a credential carrying an expires-keyed caveat, the
identifier is registered, stays registered across any sequence of later
middleware calls, and every later verification call presenting a
credential with that identifier fails with a 403 outcome — with the
replay message exactly when that credential itself verifies, so the
registry-membership check runs after signature verification and before
granting access. -/
theorem claim_C1_replay_rejection
    (v : L402Validator) (now : String) (st st' : Registry)
    (h ms pre : String) (m : Macaroon)
    (hs : startsWithScheme h = true)
    (hp : parseAuthValue h = some (ms, pre))
    (hd : v.deserialize ms = some m)
    (hex : ∃ c ∈ m.caveats, splitKey c = "expires")
    (hcall : v.call now st (some h) = (Outcome.allow, st')) :
    m.identifier ∈ st'.map Prod.fst ∧
    (∀ (steps : List (String × Option String)) (now2 h2 ms2 pre2 : String)
        (m2 : Macaroon) (bs2 : List Nat),
      startsWithScheme h2 = true →
      parseAuthValue h2 = some (ms2, pre2) →
      v.deserialize ms2 = some m2 →
      m2.identifier = m.identifier →
      bytesFromHex pre2 = some bs2 →
      (v.call now2 (runSeq v steps st') (some h2)).1.status = some 403 ∧
      (verifyMacaroon v.sha256hex now2 pre2 v.root_key m2 = some true →
       (v.call now2 (runSeq v steps st') (some h2)).1 = Outcome.replayForbidden)) := by
  rw [call_scheme_eq v now st h hs] at hcall
  unfold L402Validator.verification at hcall
  simp only [hp, hd] at hcall
  have hmem : m.identifier ∈ st'.map Prod.fst := by
    cases hbf : bytesFromHex pre with
    | none => simp only [hbf] at hcall; simp at hcall
    | some bs1 =>
      simp only [hbf] at hcall
      cases hvm1 : verifyMacaroon v.sha256hex now pre v.root_key m with
      | none => simp only [hvm1] at hcall; simp at hcall
      | some b1 =>
        cases b1 with
        | false => simp only [hvm1] at hcall; simp at hcall
        | true =>
          simp only [hvm1] at hcall
          by_cases hany : st.any (fun p => p.1 == m.identifier) = true
          · rw [if_pos hany] at hcall
            simp at hcall
          · rw [if_neg hany] at hcall
            cases hloop : insertExpiresLoop m.identifier m.caveats st with
            | mk st2 b2 =>
              rw [hloop] at hcall
              cases b2 with
              | true => simp at hcall
              | false =>
                have hst : st2 = st' := by simpa using hcall
                rw [← hst]
                exact insertExpiresLoop_inserts m.identifier m.caveats st st2 hloop hex
  refine ⟨hmem, ?_⟩
  intro steps now2 h2 ms2 pre2 m2 bs2 hs2 hp2 hd2 hid hb2
  have hmem2 : m2.identifier ∈ (runSeq v steps st').map Prod.fst := by
    rw [hid]
    exact runSeq_keys_mono v steps st' m.identifier hmem
  exact call_with_member_403 v now2 (runSeq v steps st') h2 ms2 pre2 m2 bs2 hs2 hp2 hd2 hb2 hmem2

/-- C1 counterexample: a validly signed credential whose only caveat is
a correct payment-hash caveat (a never-expiring credential) is accepted,
leaves the registry empty, and the identical second presentation is
accepted again instead of failing with 403. -/
theorem claim_C1_counterexample :
    vX1.call "t1" [] (some "LSAT x:00") = (Outcome.allow, []) ∧
    vX1.call "t2" (vX1.call "t1" [] (some "LSAT x:00")).2 (some "LSAT x:00") =
      (Outcome.allow, []) ∧
    Outcome.allow.status ≠ some 403 :=
  ⟨rfl, rfl, by decide⟩

/-- C1 witness: the replayed identical presentation of a registered
identifier is answered 403. -/
theorem claim_C1_witness :
    (vW1.call "4" (runSeq vW1 [] [("idA", "5")]) (some "LSAT x:00")).1.status = some 403 :=
  ((claim_C1_replay_rejection vW1 "3" [] [("idA", "5")] "LSAT x:00" "x" "00" macW1
      rfl rfl rfl ⟨"expires = 5", by decide, rfl⟩ rfl).2
    [] "4" "LSAT x:00" "x" "00" macW1 [0] rfl rfl rfl rfl rfl).1

/-- Unfolding one step of a call sequence. -/
theorem runSeq_cons (v : L402Validator) (p : String × Option String)
    (ps : List (String × Option String)) (st : Registry) :
    runSeq v (p :: ps) st = runSeq v ps (v.call p.1 st p.2).2 := rfl

/-- C10: a presented credential that passes signature and caveat
verification while its identifier is not yet registered gets its
identifier inserted exactly when it carries an expires-keyed caveat; a
verified credential without one is allowed through, leaves the registry
unchanged, and is therefore accepted again under arbitrarily many
repeated presentations. -/
theorem claim_C10_insert_iff_expires
    (v : L402Validator) (now : String) (st : Registry)
    (h ms pre : String) (m : Macaroon) (bs : List Nat)
    (hs : startsWithScheme h = true)
    (hp : parseAuthValue h = some (ms, pre))
    (hd : v.deserialize ms = some m)
    (hb : bytesFromHex pre = some bs)
    (hvm : verifyMacaroon v.sha256hex now pre v.root_key m = some true)
    (hnm : m.identifier ∉ st.map Prod.fst) :
    (m.identifier ∈ (v.call now st (some h)).2.map Prod.fst ↔
      ∃ c ∈ m.caveats, splitKey c = "expires") ∧
    ((∀ c ∈ m.caveats, splitKey c ≠ "expires") →
      v.call now st (some h) = (Outcome.allow, st)) ∧
    ((∀ c ∈ m.caveats, splitKey c ≠ "expires") →
      ∀ n : Nat, runSeq v (List.replicate n (now, some h)) st = st) := by
  have hany : st.any (fun p => p.1 == m.identifier) = false := by
    cases hc : st.any (fun p => p.1 == m.identifier) with
    | false => rfl
    | true => exact absurd ((any_fst_eq_true_iff st m.identifier).mp hc) hnm
  have hcalleq : v.call now st (some h) =
      (match insertExpiresLoop m.identifier m.caveats st with
        | (st', true) => (Outcome.uncaught "IndexError", st')
        | (st', false) => (Outcome.allow, st')) := by
    rw [call_scheme_eq v now st h hs, verification_unfold v now st h ms pre m bs hp hd hb]
    simp only [hvm, hany, Bool.false_eq_true, if_false]
  have hvc : verifyCaveats v.sha256hex now pre m.caveats = some true := by
    by_contra hne
    exact verifyMacaroon_not_true v.sha256hex now pre v.root_key m hne hvm
  have hall := verifyCaveats_all v.sha256hex now pre m.caveats hvc
  have hsome : ∀ c ∈ m.caveats, splitKey c = "expires" → (splitVal c).isSome := by
    intro c hc hk
    obtain ⟨tv, htv, _⟩ := caveatMet_expires v.sha256hex now pre c hk (hall c hc)
    rw [htv]
    rfl
  have hnoexn := insertExpiresLoop_no_exn m.identifier m.caveats st hsome
  have hstable : (∀ c ∈ m.caveats, splitKey c ≠ "expires") →
      v.call now st (some h) = (Outcome.allow, st) := by
    intro hnone
    have hid := insertExpiresLoop_no_expires m.identifier m.caveats st hnone
    rw [hcalleq]
    simp only [hid]
  refine ⟨?_, hstable, ?_⟩
  · cases hloop : insertExpiresLoop m.identifier m.caveats st with
    | mk st2 b2 =>
      rw [hloop] at hnoexn
      cases b2 with
      | true => simp at hnoexn
      | false =>
        rw [hcalleq]
        simp only [hloop]
        constructor
        · intro hmem
          by_contra hnex
          push_neg at hnex
          have hid := insertExpiresLoop_no_expires m.identifier m.caveats st hnex
          have hst : st = st2 := by
            have := hid.symm.trans hloop
            simpa using this
          rw [← hst] at hmem
          exact hnm hmem
        · intro hex
          exact insertExpiresLoop_inserts m.identifier m.caveats st st2 hloop hex
  · intro hnone n
    have hceq := hstable hnone
    induction n with
    | zero => rfl
    | succ k ih =>
      rw [List.replicate_succ, runSeq_cons]
      rw [show (v.call (now, some h).1 st (now, some h).2).2 = st from by rw [hceq]]
      exact ih

/-- C10 witness: the concrete no-expires credential is accepted with the
registry left unchanged. -/
theorem claim_C10_witness :
    vW10.call "t0" [] (some "LSAT x:00") = (Outcome.allow, []) :=
  ((claim_C10_insert_iff_expires vW10 "t0" [] "LSAT x:00" "x" "00" macW10 [0]
      rfl rfl rfl rfl rfl (by decide)).2).1 (by decide)
